import Mathlib

/-!
Verification of the riscv-meta wrangling tool: a shallow embedding of its
bit-field algebra (match-spec compiler, operand decode-step synthesizer),
its Standard/extension algebra, and its operation-line assembler, together
with theorems settling the specification claims.

Machine integers are modelled as `Nat`/`Int` with explicit wrap-around:
Go `uint32`/`uint64` arithmetic wraps modulo `2^32`/`2^64`, Go `int`
(64-bit) wraps into `[-2^63, 2^63)`, and Go shifts of a `w`-bit integer by
a count `≥ w` yield `0`, which coincides with reduction modulo `2^w`.
Fallible paths (a Go run-time panic) are modelled with `Option`, `none`
standing for the panic.
-/

namespace RiscvMeta

/-- Go `uint64` wrap-around: reduce an integer into `[0, 2^64)`. -/
def wrap64 (x : Int) : Nat :=
  (x % (2 ^ 64 : Int)).toNat

/-- Go conversion `int(v)` of a `uint64` value `v < 2^64`: reinterpret the
bit pattern as a signed 64-bit integer. -/
def toInt64 (v : Nat) : Int :=
  if v < 2 ^ 63 then (v : Int) else (v : Int) - 2 ^ 64

/-- Go `int` (64-bit) wrap-around: reduce an integer into `[-2^63, 2^63)`. -/
def wrapI64 (x : Int) : Int :=
  (x + 2 ^ 63) % 2 ^ 64 - 2 ^ 63

/-- Model of `rangeMask(top, bottom uint) bits32` from the source:
`bits32((1 << (top + 1)) - (1 << bottom))`.  The two untyped `1` constants
take type `bits32` (= `uint32`), so the whole computation wraps modulo
`2^32`; the exponent `top + 1` is computed in `uint` (64-bit) and so wraps
modulo `2^64`.  A Go shift of a 32-bit value by a count `≥ 32` yields `0`,
which agrees with `2^count % 2^32`. -/
def rangeMask (top bottom : Nat) : Nat :=
  (((2 : Int) ^ ((top + 1) % 2 ^ 64) - (2 : Int) ^ bottom) % 2 ^ 32).toNat

/-- Model of `ArgDecodeStep`: `Mask bits32` and `RightShift int`. -/
structure ArgDecodeStep where
  Mask : Nat
  RightShift : Int
deriving DecidableEq

/-- Model of the destination-chunk loop inside `ParseArgDecodeSteps` (the
`rawConcats` loop of the split/reassembled case).  The state is the current
`srcTop` (a Go `uint64`).  Each chunk carries the `strconv.ParseUint`
results of its `destTop` and `destBottom` components (`none` = parse
error, in which case the Go loop `continue`s without touching `srcTop`;
a bare chunk `"n"` has both components equal).  For a parsed chunk:
`width := destTop - destBottom` and `srcBottom := srcTop - width` in
`uint64` arithmetic, the emitted step is
`{Mask := rangeMask srcTop srcBottom, RightShift := int(srcBottom) - int(destTop)}`
(64-bit signed subtraction), and then `srcTop -= width + 1`. -/
def splitSteps : Nat → List (Option Nat × Option Nat) → List ArgDecodeStep
  | _, [] => []
  | srcTop, (destTopP, destBottomP) :: rest =>
    match destTopP, destBottomP with
    | some destTop, some destBottom =>
      let width := wrap64 ((destTop : Int) - (destBottom : Int))
      let srcBottom := wrap64 ((srcTop : Int) - (width : Int))
      { Mask := rangeMask srcTop srcBottom,
        RightShift := wrapI64 (toInt64 srcBottom - toInt64 destTop) }
        :: splitSteps (wrap64 ((srcTop : Int) - ((width : Int) + 1))) rest
    | _, _ => splitSteps srcTop rest

/-- One comma-separated part of an operand descriptor, abstracted at the
level of its `strconv.ParseUint` outcomes.  `contig` is a part without a
`[` (a `"top:bottom"` or bare `"n"` field, for which the source sets
`rawBottom = rawTop`, so both components coincide); `split` is a
`"srcTop:ignored[...|...]"` part with its list of destination chunks. -/
inductive RawPart where
  | contig (topP bottomP : Option Nat)
  | split (srcTopP : Option Nat) (chunks : List (Option Nat × Option Nat))
deriving DecidableEq

/-- Steps contributed by one part of a descriptor, following the two
branches of the `switch` in `ParseArgDecodeSteps`: a contiguous part whose
numbers parse yields one step `{Mask := rangeMask top bottom, RightShift := int(bottom)}`;
a part whose numbers fail to parse is skipped (`continue`); a split part
runs the destination-chunk loop. -/
def partSteps : RawPart → List ArgDecodeStep
  | .contig topP bottomP =>
    match topP, bottomP with
    | some top, some bottom =>
      [{ Mask := rangeMask top bottom, RightShift := toInt64 bottom }]
    | _, _ => []
  | .split srcTopP chunks =>
    match srcTopP with
    | some srcTop => splitSteps srcTop chunks
    | none => []

/-- Model of `ParseArgDecodeSteps`: the comma-separated parts are processed
left to right and their steps appended. -/
def ParseArgDecodeSteps (parts : List RawPart) : List ArgDecodeStep :=
  (parts.map partSteps).flatten

/-- Application of one decode step to a 32-bit instruction word, as the
generated Rust code does it (`generateRustRawInstruction`): mask, then
shift right by `RightShift`, or left when `RightShift` is negative
(`u32` arithmetic, so left shifts wrap modulo `2^32`). -/
def applyStep (w : Nat) (s : ArgDecodeStep) : Nat :=
  if s.RightShift = 0 then w &&& s.Mask
  else if s.RightShift < 0 then ((w &&& s.Mask) <<< (-s.RightShift).toNat) % 2 ^ 32
  else (w &&& s.Mask) >>> s.RightShift.toNat

/-- Bitwise-OR accumulation of all steps applied to a word (the
`raw |= ...` loop of the generated decoder). -/
def applySteps (steps : List ArgDecodeStep) (w : Nat) : Nat :=
  steps.foldl (fun acc s => acc ||| applyStep w s) 0

/-- Model of `parseMatchSpec(rawSpec string) (val uint32, mask uint32)`,
abstracted at the level of the `strconv.ParseUint` outcomes of the three
components of an `"end..start=value"` token (`none` = parse error).  The
source parses `value` first, then `start`, then `end`, returning `(0, 0)`
on the first failure; on success it returns
`(uint32(value << start), rangeMask(end, start))`, where `value << start`
is a `uint64` shift truncated to 32 bits — equal to
`value * 2^start % 2^32` for every `start`. -/
def parseMatchSpec (wantP startP endP : Option Nat) : Nat × Nat :=
  match wantP with
  | none => (0, 0)
  | some want =>
    match startP with
    | none => (0, 0)
    | some start =>
      match endP with
      | none => (0, 0)
      | some stop => ((want * 2 ^ start) % 2 ^ 32, rangeMask stop start)

/-- Model of `Standard.Base`: `Standard(s & 0xff)`, projecting a packed
(size, extension) pair onto its size. -/
def Standard.Base (s : Nat) : Nat := s &&& 255

/-- Model of `Standards.Add`: set insertion (a `Standards` set is a Go
`map[Standard]struct{}`, modelled as a duplicate-free list). -/
def Standards.Add (ss : List Nat) (s : Nat) : List Nat :=
  if s ∈ ss then ss else s :: ss

/-- Model of `Standards.Has`: set membership. -/
def Standards.Has (ss : List Nat) (s : Nat) : Prop := s ∈ ss

instance (ss : List Nat) (s : Nat) : Decidable (Standards.Has ss s) :=
  inferInstanceAs (Decidable (s ∈ ss))

/-- Model of `strings.ToUpper(string(b))[0]` for an ASCII byte `b`: the
ASCII lowercase letters are mapped to uppercase, all other ASCII bytes are
unchanged.  (The spec files are ASCII; for bytes `≥ 128` Go would take the
first byte of the upper-cased code point's UTF-8 encoding instead.) -/
def goUpperByte (b : Nat) : Nat :=
  if 97 ≤ b ∧ b ≤ 122 then b - 32 else b

/-- Model of `ParseStandard(s string) Standard`, over the string's bytes
(Go strings are byte slices; `114 = 'r'`, `118 = 'v'`).  The source slices
`bitsStr := s[2 : len(s)-1]`, which for the two-byte input `"rv"` is
`s[2:1]` — a run-time panic (slice bounds out of range), modelled as
`none`.  Otherwise the middle segment selects the size 32/64/128 (any
other middle segment returns the invalid standard 0), and the result is
`uint16(bits) | uint16(upper(last byte)) << 8`. -/
def ParseStandard (s : List Nat) : Option Nat :=
  if s.take 2 = [114, 118] then
    if s.length = 2 then none
    else
      let bitsStr := (s.drop 2).take (s.length - 3)
      let sz : Nat :=
        if bitsStr = [51, 50] then 32
        else if bitsStr = [54, 52] then 64
        else if bitsStr = [49, 50, 56] then 128
        else 0
      if sz = 0 then some 0
      else some (sz ||| goUpperByte (s.getLastD 0) <<< 8)
  else some 0

/-- Model of `MajorOpcode` (the identifier-cosmetic `FuncName`/`TypeName`
fields, out of scope per the spec, are omitted; names are byte strings). -/
structure MajorOpcode where
  Name : List Nat
  Num : Nat
deriving DecidableEq

/-- Model of `Codec` (identifier-cosmetic fields omitted). -/
structure Codec where
  Name : List Nat
  Operands : List (List Nat)
deriving DecidableEq

/-- Model of `Operation` (string-table and identifier-cosmetic fields
omitted).  `MajorOpcodeRef` is the possibly-nil `*MajorOpcode` pointer. -/
structure Operation where
  Name : List Nat
  Test : Nat
  Mask : Nat
  MajorOpcodeRef : Option MajorOpcode
  CodecRef : Codec
  Standards : List Nat
deriving DecidableEq

/-- One whitespace-separated token of an operation line after the name,
abstracted at the level of the lookups/parses the source performs on it:
`codecRef` is the result of the codec-table lookup (`codecs[rawMatch]`),
`startsDigit` is `unicode.IsDigit(rune(rawMatch[0]))`, the three `Option
Nat` fields are the `parseMatchSpec` component parse outcomes, and
`bytes` is the raw token (used when the token is parsed as a Standard). -/
structure Tok where
  codecRef : Option Codec
  startsDigit : Bool
  wantN : Option Nat
  startN : Option Nat
  endN : Option Nat
  bytes : List Nat
deriving DecidableEq

/-- Model of the first loop of `loadOperations`: consume tokens until a
codec name is found, OR-accumulating `(Test, Mask)` contributions of the
digit-leading tokens and skipping the rest; returns the codec, the
accumulated pair and the remaining tokens, or `none` when the line has no
codec token (the line is then discarded as malformed). -/
def scanOps : List Tok → Nat → Nat → Option (Codec × Nat × Nat × List Tok)
  | [], _, _ => none
  | t :: rest, test, mask =>
    match t.codecRef with
    | some c => some (c, test, mask, rest)
    | none =>
      if t.startsDigit then
        let vm := parseMatchSpec t.wantN t.startN t.endN
        scanOps rest (test ||| vm.1) (mask ||| vm.2)
      else scanOps rest test mask

/-- Model of the trailing-standards loop of `loadOperations`: each
remaining token is run through `ParseStandard` and both the result and its
`Base()` are added to the set.  A `ParseStandard` panic (`none`) aborts
the whole load, modelled by propagating `none`. -/
def addStandardsToks : List (List Nat) → List Nat → Option (List Nat)
  | [], ss => some ss
  | t :: rest, ss =>
    match ParseStandard t with
    | none => none
    | some std =>
      addStandardsToks rest (Standards.Add (Standards.Add ss std) (Standard.Base std))

/-- Model of the per-line body of `loadOperations`: scan for the codec
(no codec ⇒ `some none`, the line is skipped), attach the major opcode via
the map lookup `majors[Test & 0b1111111]` — performed only when
`Mask & 0b1111111 == 0b1111111`, and yielding `none` when the map has no
such key — and process the trailing standards tokens. -/
def assembleOpLine (majors : Nat → Option MajorOpcode) (name : List Nat)
    (toks : List Tok) : Option (Option Operation) :=
  match scanOps toks 0 0 with
  | none => some none
  | some (c, test, mask, rest) =>
    match addStandardsToks (rest.map Tok.bytes) [] with
    | none => none
    | some ss =>
      some (some
        { Name := name, Test := test, Mask := mask,
          MajorOpcodeRef := if mask &&& 127 = 127 then majors (test &&& 127) else none,
          CodecRef := c, Standards := ss })

/-- Model of the line loop of `loadOperations`: lines with fewer than
three fields (name plus at least two tokens) are skipped, skipped lines
contribute nothing, and accepted operations are kept in line order. -/
def loadOps (majors : Nat → Option MajorOpcode) :
    List (List Nat × List Tok) → Option (List Operation)
  | [] => some []
  | (name, toks) :: rest =>
    if toks.length < 2 then loadOps majors rest
    else
      match assembleOpLine majors name toks with
      | none => none
      | some none => loadOps majors rest
      | some (some op) => (loadOps majors rest).map (fun ops => op :: ops)

/-- Go's bytewise-lexicographic string order (`s ≤ t`), used by the final
`sort.Slice(ret, ret[i].Name < ret[j].Name)`. -/
def bytesLe : List Nat → List Nat → Bool
  | [], _ => true
  | _ :: _, [] => false
  | a :: as, b :: bs => if a < b then true else if b < a then false else bytesLe as bs

/-- Ordering of operations by name, the sort key of `loadOperations`. -/
def opNameLe (x y : Operation) : Prop := bytesLe x.Name y.Name = true

instance : DecidableRel opNameLe := fun x y =>
  inferInstanceAs (Decidable (bytesLe x.Name y.Name = true))

/-- Model of `loadOperations`: assemble the lines, then sort the resulting
operation list by name. -/
def loadOperations (majors : Nat → Option MajorOpcode)
    (lines : List (List Nat × List Tok)) : Option (List Operation) :=
  (loadOps majors lines).map (List.insertionSort opNameLe)

/-! Concrete sample data used to instantiate the theorems: a codec named
`"i"` (byte 105), a `"6..0=3"` match-spec token, the codec token, a
`"rv32i"` standards token, a `"rvxx"` standards token, a one-entry major
opcode table, and the operations the assembler produces from them. -/

def codecW : Codec := { Name := [105], Operands := [] }

def tokSpecW : Tok :=
  { codecRef := none, startsDigit := true,
    wantN := some 3, startN := some 0, endN := some 6, bytes := [54, 46, 46, 48, 61, 51] }

def tokCodecW : Tok :=
  { codecRef := some codecW, startsDigit := false,
    wantN := none, startN := none, endN := none, bytes := [105] }

def tokStdW : Tok :=
  { codecRef := none, startsDigit := false,
    wantN := none, startN := none, endN := none, bytes := [114, 118, 51, 50, 105] }

def tokStdInvW : Tok :=
  { codecRef := none, startsDigit := false,
    wantN := none, startN := none, endN := none, bytes := [114, 118, 120, 120] }

def majorsW : Nat → Option MajorOpcode :=
  fun n => if n = 3 then some { Name := [79, 80], Num := 3 } else none

def opMW : Operation :=
  { Name := [97], Test := 3, Mask := 127,
    MajorOpcodeRef := some { Name := [79, 80], Num := 3 },
    CodecRef := codecW, Standards := [] }

def opStdW : Operation :=
  { Name := [97], Test := 0, Mask := 0, MajorOpcodeRef := none,
    CodecRef := codecW, Standards := [32, 18720] }

def opStdInvW : Operation :=
  { Name := [97], Test := 0, Mask := 0, MajorOpcodeRef := none,
    CodecRef := codecW, Standards := [0] }

def opAW : Operation :=
  { Name := [97], Test := 3, Mask := 127, MajorOpcodeRef := none,
    CodecRef := codecW, Standards := [] }

def opBW : Operation :=
  { Name := [98], Test := 3, Mask := 127, MajorOpcodeRef := none,
    CodecRef := codecW, Standards := [] }

def linesW : List (List Nat × List Tok) :=
  [([98], [tokSpecW, tokCodecW]), ([97], [tokSpecW, tokCodecW])]

/-! Helper lemmas about the wrap-around arithmetic and `rangeMask`. -/

lemma wrap64_sub_eq (a b : Nat) (h : b ≤ a) (ha : a < 2 ^ 64) :
    wrap64 ((a : Int) - b) = a - b := by
  unfold wrap64
  have h1 : (a : Int) - b = ((a - b : Nat) : Int) := by
    rw [Nat.cast_sub h]
  have h2 : ((a - b : Nat) : Int) < 2 ^ 64 := by
    exact_mod_cast lt_of_le_of_lt (Nat.sub_le a b) ha
  rw [h1, Int.emod_eq_of_lt (Int.natCast_nonneg _) h2]
  exact Int.toNat_natCast _

lemma toInt64_small (v : Nat) (h : v < 2 ^ 63) : toInt64 v = v := by
  unfold toInt64
  rw [if_pos h]

lemma wrapI64_eq_self (x : Int) (h1 : -(2 ^ 63) ≤ x) (h2 : x < 2 ^ 63) :
    wrapI64 x = x := by
  unfold wrapI64
  rw [Int.emod_eq_of_lt (by omega) (by omega)]
  omega

lemma rangeMask_eq_of_le (t b : Nat) (hbt : b ≤ t) (ht : t ≤ 31) :
    rangeMask t b = 2 ^ (t + 1) - 2 ^ b := by
  unfold rangeMask
  have hmod : (t + 1) % 2 ^ 64 = t + 1 :=
    Nat.mod_eq_of_lt (lt_of_le_of_lt (by omega : t + 1 ≤ 32) (by norm_num))
  rw [hmod]
  have hNat : (2 : Nat) ^ b ≤ 2 ^ (t + 1) := Nat.pow_le_pow_right (by norm_num) (by omega)
  have hcast : (2 : Int) ^ (t + 1) - 2 ^ b = ((2 ^ (t + 1) - 2 ^ b : Nat) : Int) := by
    push_cast [hNat]
    ring
  have h32 : (2 : Nat) ^ (t + 1) ≤ 2 ^ 32 := Nat.pow_le_pow_right (by norm_num) (by omega)
  have hlt : ((2 ^ (t + 1) - 2 ^ b : Nat) : Int) < 2 ^ 32 := by
    exact_mod_cast lt_of_lt_of_le (Nat.sub_lt (Nat.two_pow_pos _) (Nat.two_pow_pos _)) h32
  rw [hcast, Int.emod_eq_of_lt (Int.natCast_nonneg _) hlt]
  exact Int.toNat_natCast _

lemma testBit_maskRange (t b k : Nat) (hbt : b ≤ t) :
    Nat.testBit (2 ^ (t + 1) - 2 ^ b) k = (decide (b ≤ k) && decide (k ≤ t)) := by
  have hsplit : (2 : Nat) ^ (t + 1) - 2 ^ b = (2 ^ (t + 1 - b) - 1) <<< b := by
    rw [Nat.shiftLeft_eq, Nat.sub_mul, one_mul, ← Nat.pow_add,
      show t + 1 - b + b = t + 1 from by omega]
  rw [hsplit, Nat.testBit_shiftLeft, Nat.testBit_two_pow_sub_one]
  by_cases hbk : b ≤ k
  · have h1 : decide (k ≥ b) = true := by simp [ge_iff_le, hbk]
    rw [h1, Bool.true_and, Bool.true_and]
    exact decide_eq_decide.mpr (by omega)
  · have h1 : decide (k ≥ b) = false := by simp [ge_iff_le, hbk]
    rw [h1, Bool.false_and, Bool.false_and]

/-! Helper lemmas about the standards set and the name ordering. -/

lemma mem_Add_self (ss : List Nat) (s : Nat) : s ∈ Standards.Add ss s := by
  unfold Standards.Add
  split
  · assumption
  · exact List.mem_cons_self _ _

lemma mem_Add_of_mem (ss : List Nat) (s x : Nat) (h : x ∈ ss) : x ∈ Standards.Add ss s := by
  unfold Standards.Add
  split
  · exact h
  · exact List.mem_cons_of_mem _ h

lemma addStandardsToks_mono (toks : List (List Nat)) (ss ss' : List Nat) (x : Nat)
    (hx : x ∈ ss) (h : addStandardsToks toks ss = some ss') : x ∈ ss' := by
  induction toks generalizing ss with
  | nil =>
    simp only [addStandardsToks] at h
    injection h with h
    subst h
    exact hx
  | cons t rest ih =>
    simp only [addStandardsToks] at h
    cases hp : ParseStandard t with
    | none =>
      rw [hp] at h
      exact absurd h (by simp)
    | some std =>
      rw [hp] at h
      exact ih _ (mem_Add_of_mem _ _ _ (mem_Add_of_mem _ _ _ hx)) h

lemma mem_addStandardsToks (toks : List (List Nat)) (ss ss' : List Nat)
    (t : List Nat) (std : Nat) (ht : t ∈ toks) (hp : ParseStandard t = some std)
    (h : addStandardsToks toks ss = some ss') :
    std ∈ ss' ∧ Standard.Base std ∈ ss' := by
  induction toks generalizing ss with
  | nil => cases ht
  | cons u rest ih =>
    simp only [addStandardsToks] at h
    cases hu : ParseStandard u with
    | none =>
      rw [hu] at h
      exact absurd h (by simp)
    | some s0 =>
      rw [hu] at h
      rcases List.mem_cons.mp ht with rfl | hmem
      · rw [hp] at hu
        injection hu with hu
        subst hu
        constructor
        · exact addStandardsToks_mono _ _ _ _
            (mem_Add_of_mem _ _ _ (mem_Add_self _ _)) h
        · exact addStandardsToks_mono _ _ _ _ (mem_Add_self _ _) h
      · exact ih _ hmem h

lemma bytesLe_total (a b : List Nat) : bytesLe a b = true ∨ bytesLe b a = true := by
  induction a generalizing b with
  | nil => left; rfl
  | cons x xs ih =>
    cases b with
    | nil => right; rfl
    | cons y ys =>
      by_cases h1 : x < y
      · left
        simp [bytesLe, h1]
      · by_cases h2 : y < x
        · right
          simp [bytesLe, h2]
        · have hxy : x = y := by omega
          subst hxy
          rcases ih ys with h | h
          · left
            simp [bytesLe, lt_self_iff_false, h]
          · right
            simp [bytesLe, lt_self_iff_false, h]

lemma bytesLe_trans (a b c : List Nat) (h1 : bytesLe a b = true) (h2 : bytesLe b c = true) :
    bytesLe a c = true := by
  induction a generalizing b c with
  | nil => rfl
  | cons x xs ih =>
    cases b with
    | nil => exact absurd h1 (by simp [bytesLe])
    | cons y ys =>
      cases c with
      | nil => exact absurd h2 (by simp [bytesLe])
      | cons z zs =>
        simp only [bytesLe] at h1 h2 ⊢
        split_ifs at h1 h2 ⊢ <;>
          first
          | rfl
          | (exfalso; omega)
          | (exact ih ys zs h1 h2)

instance : IsTotal Operation opNameLe where
  total a b := bytesLe_total a.Name b.Name

instance : IsTrans Operation opNameLe where
  trans a b c := bytesLe_trans a.Name b.Name c.Name

/-! Theorems for the claims. -/

/-- C7 (amended): for a contiguous operand descriptor `"top:bottom"` (or a
bare `"n"`, for which `bottom = top`) whose numbers parse, with the
in-range side condition `bottom ≤ top ≤ 31` forced by the counterexample,
`ParseArgDecodeSteps` emits exactly one step for that descriptor wherever
it occurs in the comma list, with `Mask` covering exactly the contiguous
bits `[bottom, top]` and `RightShift` equal to `bottom`. -/
theorem contigFieldStep (pre post : List RawPart) (top bottom : Nat)
    (hbt : bottom ≤ top) (ht : top ≤ 31) :
    ParseArgDecodeSteps (pre ++ RawPart.contig (some top) (some bottom) :: post)
      = ParseArgDecodeSteps pre
          ++ { Mask := 2 ^ (top + 1) - 2 ^ bottom, RightShift := (bottom : Int) }
            :: ParseArgDecodeSteps post
    ∧ ∀ k, Nat.testBit (2 ^ (top + 1) - 2 ^ bottom) k
        = (decide (bottom ≤ k) && decide (k ≤ top)) := by
  refine ⟨?_, fun k => testBit_maskRange top bottom k hbt⟩
  have hstep : partSteps (RawPart.contig (some top) (some bottom))
      = [{ Mask := 2 ^ (top + 1) - 2 ^ bottom, RightShift := (bottom : Int) }] := by
    have h0 : partSteps (RawPart.contig (some top) (some bottom))
        = [{ Mask := rangeMask top bottom, RightShift := toInt64 bottom }] := rfl
    rw [h0, rangeMask_eq_of_le top bottom hbt ht,
      toInt64_small bottom (lt_of_le_of_lt (by omega : bottom ≤ 31) (by norm_num))]
  unfold ParseArgDecodeSteps
  rw [List.map_append, List.map_cons, List.flatten_append, List.flatten_cons, hstep,
    List.singleton_append]

/-- Witness for C7: the descriptor `"7:3"` alone yields the single step
with mask bits `[3, 7]` and right shift 3. -/
theorem contigFieldStepWitness :
    ParseArgDecodeSteps ([] ++ RawPart.contig (some 7) (some 3) :: [])
        = ParseArgDecodeSteps []
            ++ { Mask := 2 ^ 8 - 2 ^ 3, RightShift := (3 : Int) } :: ParseArgDecodeSteps []
    ∧ ∀ k, Nat.testBit (2 ^ 8 - 2 ^ 3) k = (decide (3 ≤ k) && decide (k ≤ 7)) :=
  contigFieldStep [] [] 7 3 (by decide) (by decide)

/-- Counterexample for C7 as stated: the descriptor `"3:5"` parses
(top 3, bottom 5) but the `uint32` wrap-around of `rangeMask` produces the
mask `0xFFFFFFF0`, which has bit 31 set — not a mask covering exactly the
bits between 3 and 5. -/
theorem contigFieldCex :
    (ParseArgDecodeSteps [RawPart.contig (some 3) (some 5)]).map ArgDecodeStep.Mask
        = [4294967280]
    ∧ Nat.testBit 4294967280 31 = true
    ∧ ¬ ((5 : Nat) ≤ 31 ∧ (31 : Nat) ≤ 3) ∧ ¬ ((3 : Nat) ≤ 31 ∧ (31 : Nat) ≤ 5) := by
  refine ⟨by decide, by decide, by decide, by decide⟩

/-- C1 (amended): the destination-chunk loop of `ParseArgDecodeSteps`
processes chunks left to right and, for a chunk `[destTop:destBottom]`
whose numbers parse — with the in-range side conditions
`destBottom ≤ destTop ≤ 31` and `destTop - destBottom ≤ srcTop ≤ 31`
forced by the counterexample — emits exactly one step whose `Mask` covers
exactly the source bits `[srcTop - (destTop - destBottom), srcTop]` and
whose `RightShift` is `(srcTop - (destTop - destBottom)) - destTop`, then
decreases `srcTop` by `(destTop - destBottom) + 1` (in `uint64`
arithmetic, which is the plain decrement whenever
`destTop - destBottom < srcTop`) before processing the next chunk. -/
theorem splitChunkStep (srcTop destTop destBottom : Nat)
    (rest : List (Option Nat × Option Nat))
    (hdb : destBottom ≤ destTop) (hdt : destTop ≤ 31)
    (hw : destTop - destBottom ≤ srcTop) (hst : srcTop ≤ 31) :
    splitSteps srcTop ((some destTop, some destBottom) :: rest)
      = { Mask := 2 ^ (srcTop + 1) - 2 ^ (srcTop - (destTop - destBottom)),
          RightShift := ((srcTop - (destTop - destBottom) : Nat) : Int) - (destTop : Int) }
        :: splitSteps (wrap64 ((srcTop : Int) - ((destTop - destBottom : Nat) : Int) - 1)) rest
    ∧ (∀ k, Nat.testBit (2 ^ (srcTop + 1) - 2 ^ (srcTop - (destTop - destBottom))) k
        = (decide (srcTop - (destTop - destBottom) ≤ k) && decide (k ≤ srcTop)))
    ∧ (destTop - destBottom < srcTop →
        wrap64 ((srcTop : Int) - ((destTop - destBottom : Nat) : Int) - 1)
          = srcTop - (destTop - destBottom) - 1) := by
  have hwidth : wrap64 ((destTop : Int) - (destBottom : Int)) = destTop - destBottom :=
    wrap64_sub_eq destTop destBottom hdb (lt_of_le_of_lt hdt (by norm_num))
  have hsb : wrap64 ((srcTop : Int) - ((destTop - destBottom : Nat) : Int))
      = srcTop - (destTop - destBottom) :=
    wrap64_sub_eq srcTop (destTop - destBottom) hw (lt_of_le_of_lt hst (by norm_num))
  refine ⟨?_, fun k => testBit_maskRange srcTop (srcTop - (destTop - destBottom)) k (by omega),
    fun h => ?_⟩
  · simp only [splitSteps]
    rw [hwidth, hsb, rangeMask_eq_of_le srcTop (srcTop - (destTop - destBottom)) (by omega) hst,
      toInt64_small (srcTop - (destTop - destBottom))
        (lt_of_le_of_lt (by omega : srcTop - (destTop - destBottom) ≤ 31) (by norm_num)),
      toInt64_small destTop (lt_of_le_of_lt hdt (by norm_num)),
      wrapI64_eq_self _ (by push_cast; omega) (by push_cast; omega),
      show (srcTop : Int) - (((destTop - destBottom : Nat) : Int) + 1)
          = (srcTop : Int) - ((destTop - destBottom : Nat) : Int) - 1 from by ring]
  · rw [show (srcTop : Int) - ((destTop - destBottom : Nat) : Int) - 1
        = (srcTop : Int) - (((destTop - destBottom) + 1 : Nat) : Int) from by push_cast; ring,
      wrap64_sub_eq srcTop ((destTop - destBottom) + 1) (by omega)
        (lt_of_le_of_lt hst (by norm_num))]
    omega

/-- Witness for C1: the first chunk of the branch-immediate style
descriptor `"31:25[12|10:5]"` — `srcTop = 31`, chunk `[12:12]` — emits the
single-bit mask at 31 with right shift 19, and leaves `srcTop = 30`. -/
theorem splitChunkStepWitness :
    splitSteps 31 ((some 12, some 12) :: [(some 10, some 5)])
      = { Mask := 2 ^ 32 - 2 ^ (31 - (12 - 12)),
          RightShift := ((31 - (12 - 12) : Nat) : Int) - (12 : Int) }
        :: splitSteps (wrap64 ((31 : Int) - ((12 - 12 : Nat) : Int) - 1)) [(some 10, some 5)]
    ∧ (∀ k, Nat.testBit (2 ^ 32 - 2 ^ (31 - (12 - 12))) k
        = (decide (31 - (12 - 12) ≤ k) && decide (k ≤ 31)))
    ∧ (12 - 12 < 31 →
        wrap64 ((31 : Int) - ((12 - 12 : Nat) : Int) - 1) = 31 - (12 - 12) - 1) :=
  splitChunkStep 31 12 12 [(some 10, some 5)] (by decide) (by decide) (by decide) (by decide)

/-- Counterexample for C1 as stated: with `srcTop = 32` (which parses) and
the chunk `[0:0]`, the claim requires a mask covering exactly source bit
32, but the emitted step's 32-bit mask is `0` — bit 32 is not covered. -/
theorem splitChunkCex :
    (splitSteps 32 [(some 0, some 0)]).map ArgDecodeStep.Mask = [0]
    ∧ Nat.testBit 0 32 = false := by
  refine ⟨by decide, by decide⟩

/-- C2 (code bug): for the split descriptor with `srcTop = 1` and the
single destination chunk `[1:0]`, the synthesized step is
`{Mask := 0b11, RightShift := -1}`; applying it to the word `1` yields
`2`, so destination bit 0 does not receive consumed source bit 0 — the
steps do not place the consumed slice at its destination chunk `[1:0]`
(the reconstruction would require `RightShift = srcBottom - destBottom`,
but the source computes `srcBottom - destTop`). -/
theorem splitReassembleShiftBug :
    splitSteps 1 [(some 1, some 0)] = [{ Mask := 3, RightShift := -1 }]
    ∧ applySteps (splitSteps 1 [(some 1, some 0)]) 1 = 2
    ∧ Nat.testBit 2 0 = false
    ∧ Nat.testBit 1 0 = true := by
  refine ⟨by decide, by decide, by decide, by decide⟩

/-- C3 (amended): for an `"end..start=value"` token whose three numbers
parse, with `start ≤ end` — and with the side conditions `end ≤ 31` and
`value < 2^(end-start+1)` forced by the counterexample — `parseMatchSpec`
returns `(test, mask)` with `mask = (1 <<< (end+1)) - (1 <<< start)`,
i.e. exactly `end - start + 1` contiguous set bits beginning at bit
`start`, `test = value <<< start`, and `test &&& ~mask = 0` (complement
taken in 32 bits). -/
theorem parseMatchSpecOk (v s e : Nat) (hse : s ≤ e) (he : e ≤ 31)
    (hv : v < 2 ^ (e - s + 1)) :
    parseMatchSpec (some v) (some s) (some e) = (v * 2 ^ s, 2 ^ (e + 1) - 2 ^ s)
    ∧ (∀ k, Nat.testBit (2 ^ (e + 1) - 2 ^ s) k = (decide (s ≤ k) && decide (k ≤ e)))
    ∧ (v * 2 ^ s) &&& ((2 ^ 32 - 1) ^^^ (2 ^ (e + 1) - 2 ^ s)) = 0 := by
  have htest : (v * 2 ^ s) % 2 ^ 32 = v * 2 ^ s := by
    apply Nat.mod_eq_of_lt
    calc v * 2 ^ s < 2 ^ (e - s + 1) * 2 ^ s := (Nat.mul_lt_mul_right (Nat.two_pow_pos s)).mpr hv
      _ = 2 ^ (e + 1) := by rw [← Nat.pow_add, show e - s + 1 + s = e + 1 from by omega]
      _ ≤ 2 ^ 32 := Nat.pow_le_pow_right (by norm_num) (by omega)
  refine ⟨?_, fun k => testBit_maskRange e s k hse, ?_⟩
  · have h0 : parseMatchSpec (some v) (some s) (some e)
        = ((v * 2 ^ s) % 2 ^ 32, rangeMask e s) := rfl
    rw [h0, htest, rangeMask_eq_of_le e s hse he]
  · apply Nat.eq_of_testBit_eq
    intro k
    rw [Nat.testBit_and, Nat.testBit_xor, Nat.zero_testBit, testBit_maskRange e s k hse,
      Nat.testBit_two_pow_sub_one, ← Nat.shiftLeft_eq, Nat.testBit_shiftLeft]
    by_cases h1 : s ≤ k
    · by_cases h2 : k ≤ e
      · simp [ge_iff_le, h1, h2, show k < 32 from by omega]
      · have hvk : Nat.testBit v (k - s) = false := by
          apply Nat.testBit_lt_two_pow
          calc v < 2 ^ (e - s + 1) := hv
            _ ≤ 2 ^ (k - s) := Nat.pow_le_pow_right (by norm_num) (by omega)
        simp [ge_iff_le, h1, h2, hvk]
    · simp [ge_iff_le, h1]

/-- Witness for C3: the token `"6..0=3"` yields test 3 and the 7-bit mask
127. -/
theorem parseMatchSpecOkWitness :
    parseMatchSpec (some 3) (some 0) (some 6) = (3 * 2 ^ 0, 2 ^ 7 - 2 ^ 0)
    ∧ (∀ k, Nat.testBit (2 ^ 7 - 2 ^ 0) k = (decide (0 ≤ k) && decide (k ≤ 6)))
    ∧ (3 * 2 ^ 0) &&& ((2 ^ 32 - 1) ^^^ (2 ^ 7 - 2 ^ 0)) = 0 :=
  parseMatchSpecOk 3 0 6 (by decide) (by decide) (by decide)

/-- Counterexample for C3 as stated: the token `"0..0=2"` parses and has
`end ≥ start`, but its value does not fit the masked bit, so
`test &&& ~mask = 2 ≠ 0`; and for the token `"32..0=0"` the `uint32`
truncation leaves a 32-bit mask whose bit 32 is clear, not the claimed
`end - start + 1 = 33` contiguous set bits. -/
theorem parseMatchSpecCex :
    (parseMatchSpec (some 2) (some 0) (some 0)).1
        &&& ((2 ^ 32 - 1) ^^^ (parseMatchSpec (some 2) (some 0) (some 0)).2) = 2
    ∧ Nat.testBit (parseMatchSpec (some 0) (some 0) (some 32)).2 32 = false := by
  refine ⟨by decide, by decide⟩

/-- C8: a token any of whose three numeric components fails to parse makes
`parseMatchSpec` return `(0, 0)`, and OR-accumulating that contribution
into a line's `(Test, Mask)` leaves both unchanged. -/
theorem parseMatchSpecMalformed (wantP startP endP : Option Nat)
    (h : wantP = none ∨ startP = none ∨ endP = none) :
    parseMatchSpec wantP startP endP = (0, 0)
    ∧ ∀ test mask : Nat,
        (test ||| (parseMatchSpec wantP startP endP).1,
          mask ||| (parseMatchSpec wantP startP endP).2) = (test, mask) := by
  have hz : parseMatchSpec wantP startP endP = (0, 0) := by
    rcases h with h | h | h
    · rw [h]
      rfl
    · rw [h]
      cases wantP <;> rfl
    · rw [h]
      cases wantP with
      | none => rfl
      | some w => cases startP <;> rfl
  refine ⟨hz, fun test mask => ?_⟩
  rw [hz]
  simp

/-- Witness for C8: a token with an unparseable value component
contributes `(0, 0)` and leaves an accumulated `(Test, Mask) = (5, 12)`
unchanged. -/
theorem parseMatchSpecMalformedWitness :
    parseMatchSpec none (some 1) (some 2) = (0, 0)
    ∧ ∀ test mask : Nat,
        (test ||| (parseMatchSpec none (some 1) (some 2)).1,
          mask ||| (parseMatchSpec none (some 1) (some 2)).2) = (test, mask) :=
  parseMatchSpecMalformed none (some 1) (some 2) (Or.inl rfl)

/-- C4 (amended): an operation assembled by `loadOperations` has its major
opcode reference equal to the table lookup at `Test &&& 0b1111111`
performed exactly when the low 7 mask bits are all set; hence the
reference is non-null if and only if the low 7 mask bits are all set AND
the table has an entry at that number (the lookup of a missing key yields
the nil pointer, which the counterexample shows can happen even with a
fully set low-7 mask), and when non-null it equals that table entry. -/
theorem operationMajorOpcode (majors : Nat → Option MajorOpcode) (name : List Nat)
    (toks : List Tok) (op : Operation)
    (h : assembleOpLine majors name toks = some (some op)) :
    op.MajorOpcodeRef = (if op.Mask &&& 127 = 127 then majors (op.Test &&& 127) else none)
    ∧ (op.MajorOpcodeRef.isSome
        ↔ op.Mask &&& 127 = 127 ∧ (majors (op.Test &&& 127)).isSome)
    ∧ ∀ moc, op.MajorOpcodeRef = some moc → majors (op.Test &&& 127) = some moc := by
  cases hscan : scanOps toks 0 0 with
  | none => simp [assembleOpLine, hscan] at h
  | some r =>
    obtain ⟨c, test, mask, rest⟩ := r
    cases hadd : addStandardsToks (rest.map Tok.bytes) [] with
    | none => simp [assembleOpLine, hscan, hadd] at h
    | some ss =>
      simp only [assembleOpLine, hscan, hadd, Option.some.injEq] at h
      subst h
      by_cases hm : mask &&& 127 = 127 <;> simp [hm]

/-- Witness for C4: with a one-entry major-opcode table holding number 3,
the line `"a 6..0=3 i"` assembles to an operation whose major-opcode
reference is that entry. -/
theorem operationMajorOpcodeWitness :
    opMW.MajorOpcodeRef
        = (if opMW.Mask &&& 127 = 127 then majorsW (opMW.Test &&& 127) else none)
    ∧ (opMW.MajorOpcodeRef.isSome
        ↔ opMW.Mask &&& 127 = 127 ∧ (majorsW (opMW.Test &&& 127)).isSome)
    ∧ ∀ moc, opMW.MajorOpcodeRef = some moc → majorsW (opMW.Test &&& 127) = some moc :=
  operationMajorOpcode majorsW [97] [tokSpecW, tokCodecW] opMW (by decide)

/-- Counterexample for C4 as stated: against an empty major-opcode table,
the same line assembles to an operation whose `Mask` has all low 7 bits
set yet whose major-opcode reference is nil — the claimed equivalence
"non-null iff low 7 mask bits all set" fails. -/
theorem operationMajorOpcodeCex :
    (assembleOpLine (fun _ => none) [97] [tokSpecW, tokCodecW]).map
        (Option.map (fun op => (op.Mask &&& 127, op.MajorOpcodeRef.isSome)))
      = some (some (127, false)) := by decide

/-- C5 (code bug): `ParseStandard` panics on the two-character input
`"rv"` (the slice `s[2 : len(s)-1]` is `s[2:1]`, out of range), modelled
here as `none`; nearby degenerate inputs `"r"`, `"rvx"` and `""` do
return the invalid (zero) standard as the claim demands. -/
theorem parseStandardRVPanics :
    ParseStandard [114, 118] = none
    ∧ ParseStandard [114] = some 0
    ∧ ParseStandard [114, 118, 120] = some 0
    ∧ ParseStandard [] = some 0 := by
  refine ⟨by decide, by decide, by decide, by decide⟩

/-- C6: any trailing standards token of an accepted operation line puts
both its parsed `Standard` and that standard's `Base()` into the
operation's standards set. -/
theorem trailingStandardAdded (majors : Nat → Option MajorOpcode) (name : List Nat)
    (toks : List Tok) (c : Codec) (test mask : Nat) (rest : List Tok)
    (t : Tok) (std : Nat) (op : Operation)
    (hscan : scanOps toks 0 0 = some (c, test, mask, rest))
    (ht : t ∈ rest) (hp : ParseStandard t.bytes = some std)
    (hop : assembleOpLine majors name toks = some (some op)) :
    Standards.Has op.Standards std ∧ Standards.Has op.Standards (Standard.Base std) := by
  cases hadd : addStandardsToks (rest.map Tok.bytes) [] with
  | none => simp [assembleOpLine, hscan, hadd] at hop
  | some ss =>
    simp only [assembleOpLine, hscan, hadd, Option.some.injEq] at hop
    subst hop
    exact mem_addStandardsToks _ _ _ t.bytes std (List.mem_map_of_mem _ ht) hp hadd

/-- Witness for C6: the single token `"rv32i"` makes the operation's set
contain both `RV32I = 18720` and its base `RV32 = 32`, so membership
queries for both succeed. -/
theorem trailingStandardAddedWitness :
    Standards.Has opStdW.Standards 18720
    ∧ Standards.Has opStdW.Standards (Standard.Base 18720) :=
  trailingStandardAdded (fun _ => none) [97] [tokCodecW, tokStdW] codecW 0 0 [tokStdW]
    tokStdW 18720 opStdW (by decide) (by decide) (by decide) (by decide)

/-- C10: a trailing standards token that `ParseStandard` maps to the
invalid (zero) standard gets that zero standard added to the operation's
set (its `Base()` is again zero), so a `Has(Invalid)` query succeeds. -/
theorem invalidStandardAdded (majors : Nat → Option MajorOpcode) (name : List Nat)
    (toks : List Tok) (c : Codec) (test mask : Nat) (rest : List Tok)
    (t : Tok) (op : Operation)
    (hscan : scanOps toks 0 0 = some (c, test, mask, rest))
    (ht : t ∈ rest) (hp : ParseStandard t.bytes = some 0)
    (hop : assembleOpLine majors name toks = some (some op)) :
    Standards.Has op.Standards 0 ∧ Standard.Base 0 = 0 := by
  refine ⟨?_, rfl⟩
  cases hadd : addStandardsToks (rest.map Tok.bytes) [] with
  | none => simp [assembleOpLine, hscan, hadd] at hop
  | some ss =>
    simp only [assembleOpLine, hscan, hadd, Option.some.injEq] at hop
    subst hop
    exact (mem_addStandardsToks _ _ _ t.bytes 0 (List.mem_map_of_mem _ ht) hp hadd).1

/-- Witness for C10: the unparseable standards token `"rvxx"` parses to
the invalid standard 0, and the assembled operation's set contains 0. -/
theorem invalidStandardAddedWitness :
    Standards.Has opStdInvW.Standards 0 ∧ Standard.Base 0 = 0 :=
  invalidStandardAdded (fun _ => none) [97] [tokCodecW, tokStdInvW] codecW 0 0 [tokStdInvW]
    tokStdInvW opStdInvW (by decide) (by decide) (by decide) (by decide)

/-- C9: assembling the operation list is deterministic — the embedded
loader is a pure function of its input lines, so two runs on the same
input are equal — and the resulting operation list is sorted by operation
name. -/
theorem loadOperationsDeterministicSorted (majors : Nat → Option MajorOpcode)
    (lines : List (List Nat × List Tok)) :
    loadOperations majors lines = loadOperations majors lines
    ∧ ∀ ops, loadOperations majors lines = some ops → List.Sorted opNameLe ops := by
  refine ⟨rfl, fun ops h => ?_⟩
  unfold loadOperations at h
  cases hl : loadOps majors lines with
  | none =>
    rw [hl] at h
    exact absurd h (by simp)
  | some l =>
    rw [hl] at h
    injection h with h
    subst h
    exact List.sorted_insertionSort opNameLe l

/-- Witness for C9: a two-line input given in reverse name order loads to
the name-sorted operation list `[a, b]`. -/
theorem loadOperationsDeterministicSortedWitness :
    loadOperations (fun _ => none) linesW = loadOperations (fun _ => none) linesW
    ∧ List.Sorted opNameLe [opAW, opBW] :=
  ⟨(loadOperationsDeterministicSorted (fun _ => none) linesW).1,
    (loadOperationsDeterministicSorted (fun _ => none) linesW).2 [opAW, opBW] (by decide)⟩

end RiscvMeta
